import Mathlib

set_option linter.unusedSectionVars false

/-!
Verification development for a procedural-galaxy quadtree demo.

The development shallowly embeds the core of the repository:
the bit-mixing hash service (splitmix64, hash64, u01, tile_key, star_id),
the axis-aligned and oriented rectangle geometry with its SAT test,
the quad node and quad tree with subdivision, traversal, pruning and
deterministic star generation, and the LOD depth heuristic.

Numeric conventions: Python 64-bit wraparound arithmetic is embedded as
Nat with explicit masking by 2^64 - 1, exactly as the source writes it.
Python floats are idealised as values of a linear ordered field K
(instantiated at ℚ for executable witnesses and at ℝ where the source
uses log2, cos and sin).  The viewport stores the components
c = cos theta_rad and s = sin theta_rad of its rotation directly, since
the source only ever consumes the rotation angle through these two
values (method _axes).
-/

namespace ProcGalaxy

/-! ## Hash service (myrand.py) -/

def MASK64 : ℕ := (1 <<< 64) - 1

def TILE_DOMAIN : ℕ := 0x54494C45

def STAR_DOMAIN : ℕ := 0x53544152

def GLOBAL_SEED : ℕ := 8675309

def splitmix64 (x0 : ℕ) : ℕ :=
  let x := (x0 + 0x9E3779B97F4A7C15) &&& MASK64
  let z := x
  let z := ((z ^^^ (z >>> 30)) * 0xBF58476D1CE4E5B9) &&& MASK64
  let z := ((z ^^^ (z >>> 27)) * 0x94D049BB133111EB) &&& MASK64
  (z ^^^ (z >>> 31)) &&& MASK64

/-- Variadic hash64(*vals) embedded with an explicit list of values. -/
def hash64 (vals : List ℕ) : ℕ :=
  vals.foldl (fun h v => splitmix64 (h ^^^ (v &&& MASK64))) 0xA0761D6478BD642F

/-- u01 returns a uniform double in [0,1); the 53-bit mantissa value and
the division by 2^53 are exact, so the float result is the rational
value embedded here into K. -/
def u01 {K : Type} [LinearOrderedField K] (seed tag : ℕ) : K :=
  let x := splitmix64 (seed ^^^ ((tag * 0xD6E8FEB86659FD93) &&& MASK64))
  (((x >>> 11) &&& ((1 <<< 53) - 1) : ℕ) : K) / ((1 <<< 53 : ℕ) : K)

def tile_key (world_seed depth x y : ℕ) : ℕ :=
  hash64 [TILE_DOMAIN, world_seed, depth, x, y]

def star_id (tile_key_ i : ℕ) : ℕ :=
  hash64 [STAR_DOMAIN, tile_key_, i]

/-! ## Axis-aligned rectangles -/

variable {K : Type} [LinearOrderedField K]

structure Rect (K : Type) where
  cx : K
  cy : K
  hw : K
  hh : K
deriving DecidableEq

def Rect.xmin (r : Rect K) : K := r.cx - r.hw

def Rect.xmax (r : Rect K) : K := r.cx + r.hw

def Rect.ymin (r : Rect K) : K := r.cy - r.hh

def Rect.ymax (r : Rect K) : K := r.cy + r.hh

def Rect.w (r : Rect K) : K := 2 * r.hw

def Rect.h (r : Rect K) : K := 2 * r.hh

def Rect.corners (r : Rect K) : List (K × K) :=
  [(r.xmin, r.ymin), (r.xmin, r.ymax), (r.xmax, r.ymax), (r.xmax, r.ymin)]

/-- The four child quadrants, in source order NW, NE, SW, SE. -/
def Rect.quadrants (r : Rect K) : Rect K × Rect K × Rect K × Rect K :=
  let qhw := r.hw / 2
  let qhh := r.hh / 2
  (⟨r.cx - qhw, r.cy + qhh, qhw, qhh⟩,
   ⟨r.cx + qhw, r.cy + qhh, qhw, qhh⟩,
   ⟨r.cx - qhw, r.cy - qhh, qhw, qhh⟩,
   ⟨r.cx + qhw, r.cy - qhh, qhw, qhh⟩)

/-- Quadrant selection by child index, following the enumeration order of
Rect.quadrants (index 0 = NW, 1 = NE, 2 = SW, 3 = SE). -/
def Rect.quadrant (r : Rect K) (i : Fin 4) : Rect K :=
  match i with
  | 0 => r.quadrants.1
  | 1 => r.quadrants.2.1
  | 2 => r.quadrants.2.2.1
  | 3 => r.quadrants.2.2.2

/-- Closed point set of an axis-aligned rectangle. -/
def Rect.toSet (r : Rect K) : Set (K × K) :=
  {q | r.xmin ≤ q.1 ∧ q.1 ≤ r.xmax ∧ r.ymin ≤ q.2 ∧ q.2 ≤ r.ymax}

/-- Open interior point set of an axis-aligned rectangle. -/
def Rect.interiorSet (r : Rect K) : Set (K × K) :=
  {q | r.xmin < q.1 ∧ q.1 < r.xmax ∧ r.ymin < q.2 ∧ q.2 < r.ymax}

/-! ## Oriented rectangles (the viewport) -/

/-- Oriented rectangle: center, half sizes, and the rotation represented
by the pair c = cos theta_rad, s = sin theta_rad (the only form in which
the source consumes the angle, via the method _axes). -/
structure OrientedRect (K : Type) where
  cx : K
  cy : K
  hw : K
  hh : K
  c : K
  s : K
deriving DecidableEq

/-- Local unit axes u (local +x) and v (local +y) in world coordinates. -/
def OrientedRect.axes (o : OrientedRect K) : (K × K) × (K × K) :=
  ((o.c, o.s), (-o.s, o.c))

def OrientedRect.contains_point (o : OrientedRect K) (x y : K) : Bool :=
  let u := o.axes.1
  let v := o.axes.2
  let dx := x - o.cx
  let dy := y - o.cy
  let lx := dx * u.1 + dy * u.2
  let ly := dx * v.1 + dy * v.2
  decide (|lx| ≤ o.hw) && decide (|ly| ≤ o.hh)

/-- Fully contained iff ALL aabb corners are inside the oriented viewport. -/
def OrientedRect.contains_aabb (o : OrientedRect K) (aabb : Rect K) : Bool :=
  aabb.corners.all (fun p => o.contains_point p.1 p.2)

/-- Projection interval of an AABB onto an axis. -/
def projAabb (axis : K × K) (r : Rect K) : K × K :=
  let c := r.cx * axis.1 + r.cy * axis.2
  let rad := r.hw * |axis.1| + r.hh * |axis.2|
  (c - rad, c + rad)

/-- Projection interval of an OBB onto an axis. -/
def projObb (axis : K × K) (o : OrientedRect K) : K × K :=
  let u := o.axes.1
  let v := o.axes.2
  let c := o.cx * axis.1 + o.cy * axis.2
  let rad := o.hw * |u.1 * axis.1 + u.2 * axis.2| + o.hh * |v.1 * axis.1 + v.2 * axis.2|
  (c - rad, c + rad)

/-- Interval overlap test used by the SAT loop. -/
def overlapI (i1 i2 : K × K) : Bool :=
  !(decide (i1.2 < i2.1) || decide (i2.2 < i1.1))

/-- OBB vs AABB intersection via the Separating Axis Theorem, testing the
two world axes and the two local axes of the OBB. -/
def OrientedRect.intersects_aabb (o : OrientedRect K) (aabb : Rect K) : Bool :=
  let u := o.axes.1
  let v := o.axes.2
  let axs : List (K × K) := [(1, 0), (0, 1), u, v]
  axs.all (fun a => overlapI (projAabb a aabb) (projObb a o))

/-! ## Stars and quad nodes -/

structure StarStub (K : Type) where
  starID : ℕ
  position : K × K
  brightness : K
deriving DecidableEq

instance : Inhabited (StarStub K) := ⟨⟨0, (0, 0), 0⟩⟩

/-- Truncation toward zero, the behaviour of Python int() on floats. -/
def pytrunc [FloorRing K] (x : K) : ℤ :=
  if 0 ≤ x then ⌊x⌋ else ⌈x⌉

/-- Body of QuadNode.generate_stars: how many stars to draw and the star
list itself, as a function of the node box, depth and tile id.  The float
literals 0.5 and 0.3 are embedded as the rationals 1/2 and 3/10. -/
def mkStars [FloorRing K] (rect : Rect K) (depth : ℕ) (tileID : ℕ) : List (StarStub K) :=
  let n_expected : ℤ := pytrunc ((5 ^ depth : K) / (4 ^ depth : K))
  let variation : ℤ := pytrunc ((u01 tileID 0xFADECAFE - 1 / 2) * (n_expected : K) * (3 / 10))
  let n : ℤ := max 1 (n_expected + variation)
  let seed := tileID
  (List.range n.toNat).map (fun i =>
    ⟨star_id seed i,
     (rect.cx + (u01 seed (2 * i) - 1 / 2) * rect.w,
      rect.cy + (u01 seed (2 * i + 1) - 1 / 2) * rect.h),
     u01 seed i⟩)

/-- A quadtree cell: box, depth, path, optional 4-tuple of children and
optional cached star list. -/
inductive QuadNode (K : Type) : Type where
  | mk (rect : Rect K) (depth : ℕ) (path : List (Fin 4))
      (children : Option (QuadNode K × QuadNode K × QuadNode K × QuadNode K))
      (stars : Option (List (StarStub K)))

def QuadNode.rect : QuadNode K → Rect K
  | .mk r _ _ _ _ => r

def QuadNode.depth : QuadNode K → ℕ
  | .mk _ d _ _ _ => d

def QuadNode.path : QuadNode K → List (Fin 4)
  | .mk _ _ p _ _ => p

def QuadNode.children : QuadNode K → Option (QuadNode K × QuadNode K × QuadNode K × QuadNode K)
  | .mk _ _ _ c _ => c

def QuadNode.stars : QuadNode K → Option (List (StarStub K))
  | .mk _ _ _ _ s => s

/-- Assignment to the children field. -/
def QuadNode.withChildren :
    QuadNode K → Option (QuadNode K × QuadNode K × QuadNode K × QuadNode K) → QuadNode K
  | .mk r d p _ s, c => .mk r d p c s

/-- Assignment to the stars field. -/
def QuadNode.withStars : QuadNode K → Option (List (StarStub K)) → QuadNode K
  | .mk r d p c _, s => .mk r d p c s

def QuadNode.is_leaf (n : QuadNode K) : Bool :=
  match n.children with
  | none => true
  | some _ => false

/-- Grid position from the path, two bits per step (bit 0 to x, bit 1 to y). -/
def pathPos (p : List (Fin 4)) : ℕ × ℕ :=
  p.foldl (fun xy (step : Fin 4) =>
    ((xy.1 <<< 1) ||| (step.val &&& 1),
     (xy.2 <<< 1) ||| ((step.val >>> 1) &&& 1))) (0, 0)

def QuadNode.node_position (n : QuadNode K) : ℕ × ℕ :=
  pathPos n.path

def QuadNode.tileID (n : QuadNode K) : ℕ :=
  tile_key GLOBAL_SEED n.depth n.node_position.1 n.node_position.2

/-- The four fresh children created by subdivide, one per quadrant, each
inheriting depth+1 and an extended path. -/
def QuadNode.freshChildren (n : QuadNode K) : QuadNode K × QuadNode K × QuadNode K × QuadNode K :=
  let q := n.rect.quadrants
  (QuadNode.mk q.1 (n.depth + 1) (n.path ++ [0]) none none,
   QuadNode.mk q.2.1 (n.depth + 1) (n.path ++ [1]) none none,
   QuadNode.mk q.2.2.1 (n.depth + 1) (n.path ++ [2]) none none,
   QuadNode.mk q.2.2.2 (n.depth + 1) (n.path ++ [3]) none none)

/-- subdivide: no-op when children already exist. -/
def QuadNode.subdivide (n : QuadNode K) : QuadNode K :=
  match n.children with
  | some _ => n
  | none => n.withChildren (some n.freshChildren)

/-- generate_stars: return the cached list or generate and cache it.
Returns the updated node together with the returned list. -/
def QuadNode.generateStars [FloorRing K] (n : QuadNode K) : QuadNode K × List (StarStub K) :=
  match n.stars with
  | some s => (n, s)
  | none =>
    let stars_local := mkStars n.rect n.depth n.tileID
    (n.withStars (some stars_local), stars_local)

/-- traverse: prune when the node box misses the viewport, visit, stop
(discarding children) per the stop predicate or the max depth, otherwise
subdivide on demand and recurse into all four children.  The source
recursion is bounded only by the stop predicate and max_depth; the
embedding adds a fuel argument, consumed once per descent, which callers
supply large enough (more than max_depth) that it is never exhausted. -/
def QuadNode.traverse (vp : OrientedRect K) (stop_ : QuadNode K → Bool) (maxD : ℕ) :
    ℕ → QuadNode K → QuadNode K × List (QuadNode K)
  | fuel, n =>
    if vp.intersects_aabb n.rect = false then
      (n.withChildren none, [])
    else if (stop_ n || decide (maxD ≤ n.depth)) = true then
      (n.withChildren none, [n])
    else
      match fuel with
      | 0 => (n, [n])
      | fuel + 1 =>
        let cs :=
          match n.children with
          | some cs => cs
          | none => n.freshChildren
        let r0 := QuadNode.traverse vp stop_ maxD fuel cs.1
        let r1 := QuadNode.traverse vp stop_ maxD fuel cs.2.1
        let r2 := QuadNode.traverse vp stop_ maxD fuel cs.2.2.1
        let r3 := QuadNode.traverse vp stop_ maxD fuel cs.2.2.2
        (n.withChildren (some (r0.1, r1.1, r2.1, r3.1)),
         n :: (r0.2 ++ r1.2 ++ r2.2 ++ r3.2))

/-! ## Quad tree -/

/-- Quad tree: root node and LOD configuration.  The unused TileCache
dict of the source carries no behaviour and is omitted. -/
structure QuadTree (K : Type) where
  root : QuadNode K
  cells_across : ℕ
  min_depth : ℕ
  max_depth : ℕ

/-- from_center builds a depth-0 root node; min_depth and max_depth take
the source dataclass defaults 0 and 20. -/
def QuadTree.from_center (cx cy hw hh : K) (cells_across : ℕ) : QuadTree K :=
  ⟨QuadNode.mk (Rect.mk cx cy hw hh) 0 [] none none, cells_across, 0, 20⟩

/-- pseudo_depth = log2((root_size * cells_across) / max(1e-9, vmin)). -/
noncomputable def QuadTree.pseudo_depth (t : QuadTree ℝ) (vp : OrientedRect ℝ) : ℝ :=
  let vmin := min vp.hw vp.hh * 2
  let root_size := max t.root.rect.w t.root.rect.h
  Real.logb 2 ((root_size * (t.cells_across : ℝ)) / max (1 / 1000000000) vmin)

/-- desired_depth = ceil(pseudo_depth) clamped to [min_depth, max_depth]. -/
noncomputable def QuadTree.desired_depth (t : QuadTree ℝ) (vp : OrientedRect ℝ) : ℤ :=
  max (t.min_depth : ℤ) (min (t.max_depth : ℤ) ⌈t.pseudo_depth vp⌉)

/-- Default stop predicate: stop at the target depth or the depth clamp. -/
noncomputable def QuadTree.default_stop_predicate (t : QuadTree ℝ) (vp : OrientedRect ℝ) :
    QuadNode ℝ → Bool :=
  fun node => decide (t.desired_depth vp ≤ (node.depth : ℤ)) || decide (t.max_depth ≤ node.depth)

/-- update: run a traversal from the root with the default stop predicate
and the configured max depth, returning the reshaped tree and the visited
list.  Fuel max_depth + 1 strictly exceeds the depth budget of the
recursion, so the fuel case of traverse is never taken. -/
noncomputable def QuadTree.update (t : QuadTree ℝ) (vp : OrientedRect ℝ) :
    QuadTree ℝ × List (QuadNode ℝ) :=
  let stop_ := t.default_stop_predicate vp
  let r := QuadNode.traverse vp stop_ t.max_depth (t.max_depth + 1) t.root
  (⟨r.1, t.cells_across, t.min_depth, t.max_depth⟩, r.2)

/-! ## Canonical per-address data and tree invariants -/

/-- The box of the node addressed by a path, obtained by iterating the
quadrant split from the root box. -/
def rectAt (R : Rect K) (p : List (Fin 4)) : Rect K :=
  p.foldl (fun r (i : Fin 4) => r.quadrant i) R

/-- The canonical star list of the address p: what generate_stars
computes at the node with path p in a tree rooted at box R. -/
def canonStars [FloorRing K] (R : Rect K) (p : List (Fin 4)) : List (StarStub K) :=
  mkStars (rectAt R p) p.length (tile_key GLOBAL_SEED p.length (pathPos p).1 (pathPos p).2)

/-- Structural conformance of a node to its address in a tree rooted at
box R: the box is the one derived from the path, the depth is the path
length, the cached stars (if any) are the canonical ones, and children
carry the four extended paths and conform recursively. -/
inductive Conforms [FloorRing K] (R : Rect K) : QuadNode K → Prop where
  | leaf (p : List (Fin 4)) (st : Option (List (StarStub K)))
      (hst : st = none ∨ st = some (canonStars R p)) :
      Conforms R (QuadNode.mk (rectAt R p) p.length p none st)
  | node (p : List (Fin 4)) (st : Option (List (StarStub K)))
      (c0 c1 c2 c3 : QuadNode K)
      (hst : st = none ∨ st = some (canonStars R p))
      (h0 : c0.path = p ++ [0]) (h1 : c1.path = p ++ [1])
      (h2 : c2.path = p ++ [2]) (h3 : c3.path = p ++ [3])
      (w0 : Conforms R c0) (w1 : Conforms R c1)
      (w2 : Conforms R c2) (w3 : Conforms R c3) :
      Conforms R (QuadNode.mk (rectAt R p) p.length p (some (c0, c1, c2, c3)) st)

/-- Node states reachable from a fresh root (rooted at box R) by any
sequence of the public operations: subdivision, traversal with any
viewport, stop predicate, depth clamp and fuel, star generation, and
descent to a child. -/
inductive Reachable [FloorRing K] (R : Rect K) : QuadNode K → Prop where
  | root : Reachable R (QuadNode.mk R 0 [] none none)
  | subdiv (n : QuadNode K) : Reachable R n → Reachable R n.subdivide
  | trav (n : QuadNode K) (vp : OrientedRect K) (stop_ : QuadNode K → Bool)
      (maxD fuel : ℕ) :
      Reachable R n → Reachable R (QuadNode.traverse vp stop_ maxD fuel n).1
  | gen (n : QuadNode K) : Reachable R n → Reachable R n.generateStars.1
  | child0 (n : QuadNode K) (cs : QuadNode K × QuadNode K × QuadNode K × QuadNode K) :
      Reachable R n → n.children = some cs → Reachable R cs.1
  | child1 (n : QuadNode K) (cs : QuadNode K × QuadNode K × QuadNode K × QuadNode K) :
      Reachable R n → n.children = some cs → Reachable R cs.2.1
  | child2 (n : QuadNode K) (cs : QuadNode K × QuadNode K × QuadNode K × QuadNode K) :
      Reachable R n → n.children = some cs → Reachable R cs.2.2.1
  | child3 (n : QuadNode K) (cs : QuadNode K × QuadNode K × QuadNode K × QuadNode K) :
      Reachable R n → n.children = some cs → Reachable R cs.2.2.2

/-- Occurrence of a node inside (the subtree of) another node. -/
inductive InTree : QuadNode K → QuadNode K → Prop where
  | refl (n : QuadNode K) : InTree n n
  | c0 (m n : QuadNode K) (cs : QuadNode K × QuadNode K × QuadNode K × QuadNode K) :
      n.children = some cs → InTree m cs.1 → InTree m n
  | c1 (m n : QuadNode K) (cs : QuadNode K × QuadNode K × QuadNode K × QuadNode K) :
      n.children = some cs → InTree m cs.2.1 → InTree m n
  | c2 (m n : QuadNode K) (cs : QuadNode K × QuadNode K × QuadNode K × QuadNode K) :
      n.children = some cs → InTree m cs.2.2.1 → InTree m n
  | c3 (m n : QuadNode K) (cs : QuadNode K × QuadNode K × QuadNode K × QuadNode K) :
      n.children = some cs → InTree m cs.2.2.2 → InTree m n

/-- Modelled from the spec words, for comparison only: the claimed
star-count law with n_expected = round(5^depth / 4^depth). -/
def starCountSpecRound (K : Type) [LinearOrderedField K] [FloorRing K]
    (depth : ℕ) (tileID : ℕ) : ℤ :=
  let n_expected : ℤ := round ((5 ^ depth : K) / (4 ^ depth : K))
  let variation : ℤ := pytrunc ((u01 tileID 0xFADECAFE - 1 / 2) * (n_expected : K) * (3 / 10))
  max 1 (n_expected + variation)

/-- The tree of the end-to-end scenario: root box centered at the origin
with half-extents 512, cells_across 4, depth bounds [0, 20]. -/
def scenarioTree : QuadTree ℝ :=
  QuadTree.from_center 0 0 512 512 4

/-- The viewport of the end-to-end scenario: center (10, 96), half
extents (90, 160), rotated by 30 degrees (theta_rad = pi/6). -/
noncomputable def scenarioViewport : OrientedRect ℝ :=
  OrientedRect.mk 10 96 90 160 (Real.cos (Real.pi / 6)) (Real.sin (Real.pi / 6))

/-- Concrete fixtures over ℚ used by the executable witnesses. -/
def witRoot : QuadNode ℚ :=
  QuadNode.mk (Rect.mk 0 0 1 1) 0 [] none none

/-- A viewport disjoint from the unit root box (far away on the x axis,
axis-aligned: cos = 1, sin = 0). -/
def witFar : OrientedRect ℚ :=
  OrientedRect.mk 2000 0 1 1 1 0

/-- The root after a traversal against the disjoint viewport: pruned back
to a leaf. -/
def witPruned : QuadNode ℚ :=
  (QuadNode.traverse witFar (fun _ => false) 20 0 witRoot).1

/-! ## Plain AABB-AABB tests (spec-side comparison definitions)

These two definitions follow the words of the specification (the plain
interval-overlap and corner-containment tests) and exist only to be
compared with the SAT code above in the degenerate theta = 0 case. -/

/-- Plain AABB-AABB interval-overlap test on both world axes. -/
def aabbIntersectsPlain (a b : Rect K) : Bool :=
  (!(decide (a.xmax < b.xmin) || decide (b.xmax < a.xmin))) &&
  (!(decide (a.ymax < b.ymin) || decide (b.ymax < a.ymin)))

/-- Plain AABB-AABB containment: all four corners of the inner box are
within the bounds of the outer box. -/
def aabbContainsPlain (outer inner : Rect K) : Bool :=
  inner.corners.all (fun p =>
    decide (outer.xmin ≤ p.1) && decide (p.1 ≤ outer.xmax) &&
    decide (outer.ymin ≤ p.2) && decide (p.2 ≤ outer.ymax))

/-- C6.  SAT degenerate case: with rotation theta = 0 (cos = 1, sin = 0)
the OBB-vs-AABB SAT intersection test coincides with the plain AABB-AABB
interval-overlap test, and the OBB containment test coincides with plain
AABB-AABB corner containment. -/
theorem C6_sat_degenerate (cx cy hw hh : K) (aabb : Rect K) :
    ((OrientedRect.mk cx cy hw hh 1 0).intersects_aabb aabb
      = aabbIntersectsPlain aabb (Rect.mk cx cy hw hh)) ∧
    ((OrientedRect.mk cx cy hw hh 1 0).contains_aabb aabb
      = aabbContainsPlain (Rect.mk cx cy hw hh) aabb) := by
  constructor
  · simp only [OrientedRect.intersects_aabb, OrientedRect.axes, aabbIntersectsPlain,
      overlapI, projAabb, projObb, List.all_cons, List.all_nil,
      Rect.xmin, Rect.xmax, Rect.ymin, Rect.ymax]
    rw [Bool.eq_iff_iff]
    simp only [neg_zero, abs_one, abs_zero, mul_one, mul_zero, zero_mul, one_mul,
      add_zero, zero_add, Bool.and_eq_true, Bool.not_eq_true', Bool.or_eq_false_iff,
      decide_eq_false_iff_not, Bool.and_true]
    tauto
  · simp only [OrientedRect.contains_aabb, OrientedRect.contains_point, OrientedRect.axes,
      aabbContainsPlain, Rect.corners, List.all_cons, List.all_nil,
      Rect.xmin, Rect.xmax, Rect.ymin, Rect.ymax]
    rw [Bool.eq_iff_iff]
    simp only [neg_zero, mul_one, mul_zero, zero_mul, one_mul, add_zero, zero_add,
      Bool.and_eq_true, decide_eq_true_eq, Bool.and_true, abs_le, and_assoc]
    constructor
    · rintro ⟨h1, h2, h3, h4, h5, h6, h7, h8, h9, h10, h11, h12, h13, h14, h15, h16⟩
      exact ⟨by linarith, by linarith, by linarith, by linarith, by linarith, by linarith,
        by linarith, by linarith, by linarith, by linarith, by linarith, by linarith,
        by linarith, by linarith, by linarith, by linarith⟩
    · rintro ⟨h1, h2, h3, h4, h5, h6, h7, h8, h9, h10, h11, h12, h13, h14, h15, h16⟩
      exact ⟨by linarith, by linarith, by linarith, by linarith, by linarith, by linarith,
        by linarith, by linarith, by linarith, by linarith, by linarith, by linarith,
        by linarith, by linarith, by linarith, by linarith⟩

/-! ## Quadrant partition -/

theorem two_mul_lor_one (x : ℕ) : (2 * x) ||| 1 = 2 * x + 1 := by
  apply Nat.eq_of_testBit_eq
  intro i
  cases i with
  | zero => simp [Nat.testBit_lor, Nat.testBit_zero]; omega
  | succ i =>
    rw [Nat.testBit_lor, Nat.testBit_add_one, Nat.testBit_add_one, Nat.testBit_add_one,
      show 2 * x / 2 = x by omega, show (1 : ℕ) / 2 = 0 by norm_num,
      show (2 * x + 1) / 2 = x by omega]
    simp

theorem shiftLeft_lor_bit (x b : ℕ) (hb : b ≤ 1) : (x <<< 1) ||| b = 2 * x + b := by
  rw [Nat.shiftLeft_eq, pow_one, Nat.mul_comm]
  interval_cases b
  · simp
  · exact two_mul_lor_one x

theorem pathPos_append (p : List (Fin 4)) (i : Fin 4) :
    pathPos (p ++ [i])
      = (2 * (pathPos p).1 + ((i : ℕ) &&& 1), 2 * (pathPos p).2 + (((i : ℕ) >>> 1) &&& 1)) := by
  have h1 : ((i : ℕ) &&& 1) ≤ 1 := Nat.and_le_right
  have h2 : (((i : ℕ) >>> 1) &&& 1) ≤ 1 := Nat.and_le_right
  simp only [pathPos, List.foldl_append, List.foldl_cons, List.foldl_nil]
  exact Prod.ext (shiftLeft_lor_bit _ _ h1) (shiftLeft_lor_bit _ _ h2)

/-- C5.  Quadrant partition: the four child quadrants exactly tile the
parent box, their interiors are pairwise disjoint, each child half-extent
is half the parent half-extent, the enumeration order NW, NE, SW, SE makes
bit 0 of the child index the sign of the x offset and bit 1 the sign of
the y offset, and this is exactly the bit decoding used by node_position
to rebuild the grid position from the path. -/
theorem C5_quadrant_partition (r : Rect K) (hw : 0 < r.hw) (hh : 0 < r.hh) :
    ((r.quadrant 0).toSet ∪ (r.quadrant 1).toSet ∪ (r.quadrant 2).toSet ∪ (r.quadrant 3).toSet
       = r.toSet) ∧
    (∀ i j : Fin 4, i ≠ j → (r.quadrant i).interiorSet ∩ (r.quadrant j).interiorSet = ∅) ∧
    (∀ i : Fin 4, (r.quadrant i).hw = r.hw / 2 ∧ (r.quadrant i).hh = r.hh / 2) ∧
    (∀ i : Fin 4,
      (r.quadrant i).cx = r.cx + (if (i : ℕ) &&& 1 = 1 then r.hw / 2 else -(r.hw / 2)) ∧
      (r.quadrant i).cy = r.cy + (if ((i : ℕ) >>> 1) &&& 1 = 1 then -(r.hh / 2) else r.hh / 2)) ∧
    (∀ (p : List (Fin 4)) (i : Fin 4),
      pathPos (p ++ [i])
        = (2 * (pathPos p).1 + ((i : ℕ) &&& 1), 2 * (pathPos p).2 + (((i : ℕ) >>> 1) &&& 1))) := by
  refine ⟨?_, ?_, ?_, ?_, fun p i => pathPos_append p i⟩
  · ext ⟨x, y⟩
    simp only [Set.mem_union, Rect.toSet, Rect.quadrant, Rect.quadrants,
      Rect.xmin, Rect.xmax, Rect.ymin, Rect.ymax, Set.mem_setOf_eq]
    constructor
    · rintro (((⟨h1, h2, h3, h4⟩ | ⟨h1, h2, h3, h4⟩) | ⟨h1, h2, h3, h4⟩) | ⟨h1, h2, h3, h4⟩) <;>
        exact ⟨by linarith, by linarith, by linarith, by linarith⟩
    · rintro ⟨h1, h2, h3, h4⟩
      rcases le_or_lt x r.cx with hx | hx <;> rcases le_or_lt y r.cy with hy | hy
      · exact Or.inl (Or.inr ⟨by linarith, by linarith, by linarith, by linarith⟩)
      · exact Or.inl (Or.inl (Or.inl ⟨by linarith, by linarith, by linarith, by linarith⟩))
      · exact Or.inr ⟨by linarith, by linarith, by linarith, by linarith⟩
      · exact Or.inl (Or.inl (Or.inr ⟨by linarith, by linarith, by linarith, by linarith⟩))
  · intro i j hij
    fin_cases i <;> fin_cases j <;>
      first
      | exact absurd rfl hij
      | · apply Set.eq_empty_iff_forall_not_mem.mpr
          rintro ⟨x, y⟩ ⟨hA, hB⟩
          simp only [Rect.interiorSet, Rect.quadrant, Rect.quadrants,
            Rect.xmin, Rect.xmax, Rect.ymin, Rect.ymax, Set.mem_setOf_eq] at hA hB
          obtain ⟨a1, a2, a3, a4⟩ := hA
          obtain ⟨b1, b2, b3, b4⟩ := hB
          linarith
  · intro i
    fin_cases i <;> exact ⟨rfl, rfl⟩
  · intro i
    fin_cases i <;> constructor <;> simp [Rect.quadrant, Rect.quadrants] <;> ring

/-- Witness for C5 at the concrete unit box. -/
theorem C5_quadrant_partition_witness :
    (0 : ℚ) < 1 ∧
    (((Rect.mk (0 : ℚ) 0 1 1).quadrant 0).toSet ∪ ((Rect.mk (0 : ℚ) 0 1 1).quadrant 1).toSet ∪
        ((Rect.mk (0 : ℚ) 0 1 1).quadrant 2).toSet ∪ ((Rect.mk (0 : ℚ) 0 1 1).quadrant 3).toSet
       = (Rect.mk (0 : ℚ) 0 1 1).toSet) := by
  refine ⟨by norm_num, ?_⟩
  exact (C5_quadrant_partition (Rect.mk (0 : ℚ) 0 1 1) (by norm_num) (by norm_num)).1

/-! ## Star-count law (C3) and construction validation (C4) -/

/-- C3 counterexample.  At depth 2 the code generates 1 star (it
truncates 5^2/4^2 = 1.5625 to 1 via int()), while the claimed law with
round(1.5625) = 2 yields 2 stars. -/
theorem C3_counterexample :
    (mkStars (Rect.mk (0 : ℚ) 0 128 128) 2 (tile_key GLOBAL_SEED 2 0 0)).length = 1 ∧
    starCountSpecRound ℚ 2 (tile_key GLOBAL_SEED 2 0 0) = 2 := by
  constructor
  · with_unfolding_all rfl
  · with_unfolding_all rfl

/-- C3 as amended.  The star count is
max(1, trunc(5^depth / 4^depth) + trunc((u01(tile, tag) - 0.5) * n_expected * 0.3))
where trunc is truncation toward zero (floor, for these nonnegative
ratios) rather than rounding to nearest; in particular the count is at
least 1, so every content sequence is non-empty. -/
theorem C3_star_count_law [FloorRing K] (r : Rect K) (depth tileID : ℕ) :
    (mkStars r depth tileID).length
      = (max 1 (⌊((5 : K) / 4) ^ depth⌋
          + pytrunc ((u01 tileID 0xFADECAFE - 1 / 2) * ((⌊((5 : K) / 4) ^ depth⌋ : ℤ) : K)
              * (3 / 10)))).toNat ∧
    1 ≤ (mkStars r depth tileID).length ∧ mkStars r depth tileID ≠ [] := by
  have hpow : ((5 : K) / 4) ^ depth = (5 ^ depth : K) / (4 ^ depth : K) := div_pow 5 4 depth
  have hnn : (0 : K) ≤ (5 ^ depth : K) / (4 ^ depth : K) := by positivity
  have htr : pytrunc ((5 ^ depth : K) / (4 ^ depth : K)) = ⌊((5 : K) / 4) ^ depth⌋ := by
    rw [pytrunc, if_pos hnn, hpow]
  have hlen : (mkStars r depth tileID).length
      = (max 1 (pytrunc ((5 ^ depth : K) / (4 ^ depth : K))
          + pytrunc ((u01 tileID 0xFADECAFE - 1 / 2)
              * ((pytrunc ((5 ^ depth : K) / (4 ^ depth : K)) : ℤ) : K) * (3 / 10)))).toNat := by
    simp [mkStars]
  refine ⟨by rw [hlen, htr], ?_, ?_⟩
  · rw [hlen]
    have : (1 : ℤ) ≤ max 1 (pytrunc ((5 ^ depth : K) / (4 ^ depth : K))
        + pytrunc ((u01 tileID 0xFADECAFE - 1 / 2)
            * ((pytrunc ((5 ^ depth : K) / (4 ^ depth : K)) : ℤ) : K) * (3 / 10))) :=
      le_max_left 1 _
    omega
  · have h1 : 1 ≤ (mkStars r depth tileID).length := by
      rw [hlen]
      have : (1 : ℤ) ≤ max 1 (pytrunc ((5 ^ depth : K) / (4 ^ depth : K))
          + pytrunc ((u01 tileID 0xFADECAFE - 1 / 2)
              * ((pytrunc ((5 ^ depth : K) / (4 ^ depth : K)) : ℤ) : K) * (3 / 10))) :=
        le_max_left 1 _
      omega
    intro hnil
    rw [hnil] at h1
    simp at h1

/-- C4 counterexample.  Construction never fails: from_center accepts a
negative half-extent and a zero cells_across, and the raw constructor
accepts max_depth < min_depth, producing tree values whose configuration
is invalid in every way the claim lists. -/
theorem C4_counterexample :
    (QuadTree.from_center (0 : ℚ) 0 (-1) (-1) 0).root.rect.hw = -1 ∧
    (QuadTree.from_center (0 : ℚ) 0 (-1) (-1) 0).root.rect.hw ≤ 0 ∧
    (QuadTree.from_center (0 : ℚ) 0 (-1) (-1) 0).cells_across = 0 ∧
    (QuadTree.mk (QuadNode.mk (Rect.mk (0 : ℚ) 0 1 1) 0 [] none none) 4 5 3).max_depth
      < (QuadTree.mk (QuadNode.mk (Rect.mk (0 : ℚ) 0 1 1) 0 [] none none) 4 5 3).min_depth := by
  refine ⟨rfl, ?_, rfl, ?_⟩
  · norm_num [QuadTree.from_center, QuadNode.rect]
  · norm_num [QuadTree.min_depth, QuadTree.max_depth]

/-- C4 as amended.  Construction performs no validation at all: any
configuration values, including invalid ones, are accepted and stored
unchanged (no rejection and no clamping), so tree values with invalid
configurations are produced. -/
theorem C4_no_validation (cx cy hw hh : K) (cells : ℕ) :
    (QuadTree.from_center cx cy hw hh cells).root.rect = Rect.mk cx cy hw hh ∧
    (QuadTree.from_center cx cy hw hh cells).root.depth = 0 ∧
    (QuadTree.from_center cx cy hw hh cells).cells_across = cells ∧
    (QuadTree.from_center cx cy hw hh cells).min_depth = 0 ∧
    (QuadTree.from_center cx cy hw hh cells).max_depth = 20 ∧
    (∀ (root : QuadNode K) (ca mind maxd : ℕ),
      (QuadTree.mk root ca mind maxd).min_depth = mind ∧
      (QuadTree.mk root ca mind maxd).max_depth = maxd) :=
  ⟨rfl, rfl, rfl, rfl, rfl, fun _ _ _ _ => ⟨rfl, rfl⟩⟩

/-! ## Basic node and address lemmas -/

@[simp]
theorem rectAt_nil (R : Rect K) : rectAt R [] = R := rfl

theorem rectAt_append (R : Rect K) (p s : List (Fin 4)) :
    rectAt R (p ++ s) = rectAt (rectAt R p) s :=
  List.foldl_append _ _ _ _

theorem rectAt_snoc (R : Rect K) (p : List (Fin 4)) (i : Fin 4) :
    rectAt R (p ++ [i]) = (rectAt R p).quadrant i := by
  rw [rectAt_append]
  rfl

theorem quadrant_hw (r : Rect K) (i : Fin 4) : (r.quadrant i).hw = r.hw / 2 := by
  fin_cases i <;> rfl

theorem quadrant_hh (r : Rect K) (i : Fin 4) : (r.quadrant i).hh = r.hh / 2 := by
  fin_cases i <;> rfl

theorem rectAt_hw_nonneg (R : Rect K) (hR : 0 ≤ R.hw) (p : List (Fin 4)) :
    0 ≤ (rectAt R p).hw := by
  induction p generalizing R with
  | nil => exact hR
  | cons i p ih =>
    have : rectAt R (i :: p) = rectAt (R.quadrant i) p := rfl
    rw [this]
    exact ih _ (by rw [quadrant_hw]; positivity)

theorem rectAt_hh_nonneg (R : Rect K) (hR : 0 ≤ R.hh) (p : List (Fin 4)) :
    0 ≤ (rectAt R p).hh := by
  induction p generalizing R with
  | nil => exact hR
  | cons i p ih =>
    have : rectAt R (i :: p) = rectAt (R.quadrant i) p := rfl
    rw [this]
    exact ih _ (by rw [quadrant_hh]; positivity)

@[simp]
theorem withChildren_rect (n : QuadNode K) (c) : (n.withChildren c).rect = n.rect := by
  cases n; rfl

@[simp]
theorem withChildren_depth (n : QuadNode K) (c) : (n.withChildren c).depth = n.depth := by
  cases n; rfl

@[simp]
theorem withChildren_path (n : QuadNode K) (c) : (n.withChildren c).path = n.path := by
  cases n; rfl

@[simp]
theorem withChildren_stars (n : QuadNode K) (c) : (n.withChildren c).stars = n.stars := by
  cases n; rfl

@[simp]
theorem withChildren_children (n : QuadNode K) (c) : (n.withChildren c).children = c := by
  cases n; rfl

@[simp]
theorem withStars_rect (n : QuadNode K) (s) : (n.withStars s).rect = n.rect := by
  cases n; rfl

@[simp]
theorem withStars_depth (n : QuadNode K) (s) : (n.withStars s).depth = n.depth := by
  cases n; rfl

@[simp]
theorem withStars_path (n : QuadNode K) (s) : (n.withStars s).path = n.path := by
  cases n; rfl

@[simp]
theorem withStars_children (n : QuadNode K) (s) : (n.withStars s).children = n.children := by
  cases n; rfl

@[simp]
theorem withStars_stars (n : QuadNode K) (s) : (n.withStars s).stars = s := by
  cases n; rfl

theorem freshChildren_eq (n : QuadNode K) :
    n.freshChildren
      = (QuadNode.mk (n.rect.quadrant 0) (n.depth + 1) (n.path ++ [0]) none none,
         QuadNode.mk (n.rect.quadrant 1) (n.depth + 1) (n.path ++ [1]) none none,
         QuadNode.mk (n.rect.quadrant 2) (n.depth + 1) (n.path ++ [2]) none none,
         QuadNode.mk (n.rect.quadrant 3) (n.depth + 1) (n.path ++ [3]) none none) := rfl

theorem subdivide_of_children_none (n : QuadNode K) (h : n.children = none) :
    n.subdivide = n.withChildren (some n.freshChildren) := by
  cases n with
  | mk r d p c s => cases c <;> simp_all [QuadNode.subdivide]

theorem subdivide_of_children_some (n : QuadNode K) (cs) (h : n.children = some cs) :
    n.subdivide = n := by
  cases n with
  | mk r d p c s => cases c <;> simp_all [QuadNode.subdivide]

/-! ## Conformance lemmas -/

theorem Conforms.depth_eq [FloorRing K] {R : Rect K} {n : QuadNode K} (h : Conforms R n) :
    n.depth = n.path.length := by
  cases h <;> rfl

theorem Conforms.rect_eq [FloorRing K] {R : Rect K} {n : QuadNode K} (h : Conforms R n) :
    n.rect = rectAt R n.path := by
  cases h <;> rfl

theorem Conforms.stars_eq [FloorRing K] {R : Rect K} {n : QuadNode K} (h : Conforms R n) :
    n.stars = none ∨ n.stars = some (canonStars R n.path) := by
  cases h <;> assumption

theorem Conforms.children_some [FloorRing K] {R : Rect K} {n : QuadNode K}
    (h : Conforms R n) {cs} (hc : n.children = some cs) :
    (Conforms R cs.1 ∧ cs.1.path = n.path ++ [0]) ∧
    (Conforms R cs.2.1 ∧ cs.2.1.path = n.path ++ [1]) ∧
    (Conforms R cs.2.2.1 ∧ cs.2.2.1.path = n.path ++ [2]) ∧
    (Conforms R cs.2.2.2 ∧ cs.2.2.2.path = n.path ++ [3]) := by
  cases h with
  | leaf p st hst => simp [QuadNode.children] at hc
  | node p st c0 c1 c2 c3 hst h0 h1 h2 h3 w0 w1 w2 w3 =>
    simp only [QuadNode.children] at hc
    obtain rfl : (c0, c1, c2, c3) = cs := Option.some.inj hc
    exact ⟨⟨w0, h0⟩, ⟨w1, h1⟩, ⟨w2, h2⟩, ⟨w3, h3⟩⟩

theorem Conforms.withChildren_none_conforms [FloorRing K] {R : Rect K} {n : QuadNode K}
    (h : Conforms R n) : Conforms R (n.withChildren none) := by
  cases h with
  | leaf p st hst => exact Conforms.leaf p st hst
  | node p st c0 c1 c2 c3 hst h0 h1 h2 h3 w0 w1 w2 w3 => exact Conforms.leaf p st hst

theorem conforms_mk_leaf [FloorRing K] (R : Rect K) (q : List (Fin 4)) (r : Rect K) (d : ℕ)
    (hrect : r = rectAt R q) (hdep : d = q.length) :
    Conforms R (QuadNode.mk r d q none none) := by
  subst hrect
  subst hdep
  exact Conforms.leaf q none (Or.inl rfl)

theorem conforms_fresh [FloorRing K] {R : Rect K} {n : QuadNode K} (h : Conforms R n) :
    (Conforms R n.freshChildren.1 ∧ n.freshChildren.1.path = n.path ++ [0]) ∧
    (Conforms R n.freshChildren.2.1 ∧ n.freshChildren.2.1.path = n.path ++ [1]) ∧
    (Conforms R n.freshChildren.2.2.1 ∧ n.freshChildren.2.2.1.path = n.path ++ [2]) ∧
    (Conforms R n.freshChildren.2.2.2 ∧ n.freshChildren.2.2.2.path = n.path ++ [3]) := by
  have hr := h.rect_eq
  have hd := h.depth_eq
  rw [freshChildren_eq, hr, hd]
  exact
    ⟨⟨conforms_mk_leaf R _ _ _ (rectAt_snoc R n.path 0).symm (by simp), rfl⟩,
     ⟨conforms_mk_leaf R _ _ _ (rectAt_snoc R n.path 1).symm (by simp), rfl⟩,
     ⟨conforms_mk_leaf R _ _ _ (rectAt_snoc R n.path 2).symm (by simp), rfl⟩,
     ⟨conforms_mk_leaf R _ _ _ (rectAt_snoc R n.path 3).symm (by simp), rfl⟩⟩

theorem subdivide_conforms [FloorRing K] {R : Rect K} {n : QuadNode K} (h : Conforms R n) :
    Conforms R n.subdivide := by
  cases hc : n.children with
  | some cs => rw [subdivide_of_children_some n cs hc]; exact h
  | none =>
    rw [subdivide_of_children_none n hc]
    obtain ⟨⟨w0, h0⟩, ⟨w1, h1⟩, ⟨w2, h2⟩, ⟨w3, h3⟩⟩ := conforms_fresh h
    cases h with
    | leaf p st hst =>
      exact Conforms.node p st _ _ _ _ hst h0 h1 h2 h3 w0 w1 w2 w3
    | node p st c0 c1 c2 c3 hst => simp [QuadNode.children] at hc

/-! ## Traversal lemmas -/

theorem traverse_def (vp : OrientedRect K) (stop_ : QuadNode K → Bool) (maxD fuel : ℕ)
    (n : QuadNode K) :
    QuadNode.traverse vp stop_ maxD fuel n =
      if vp.intersects_aabb n.rect = false then
        (n.withChildren none, [])
      else if (stop_ n || decide (maxD ≤ n.depth)) = true then
        (n.withChildren none, [n])
      else
        match fuel with
        | 0 => (n, [n])
        | fuel + 1 =>
          let cs :=
            match n.children with
            | some cs => cs
            | none => n.freshChildren
          let r0 := QuadNode.traverse vp stop_ maxD fuel cs.1
          let r1 := QuadNode.traverse vp stop_ maxD fuel cs.2.1
          let r2 := QuadNode.traverse vp stop_ maxD fuel cs.2.2.1
          let r3 := QuadNode.traverse vp stop_ maxD fuel cs.2.2.2
          (n.withChildren (some (r0.1, r1.1, r2.1, r3.1)),
           n :: (r0.2 ++ r1.2 ++ r2.2 ++ r3.2)) := by
  cases fuel <;> rfl

theorem traverse_prune (vp : OrientedRect K) (stop_ : QuadNode K → Bool) (maxD fuel : ℕ)
    (n : QuadNode K) (h : vp.intersects_aabb n.rect = false) :
    QuadNode.traverse vp stop_ maxD fuel n = (n.withChildren none, []) := by
  rw [traverse_def, if_pos h]

theorem traverse_stop (vp : OrientedRect K) (stop_ : QuadNode K → Bool) (maxD fuel : ℕ)
    (n : QuadNode K) (h : vp.intersects_aabb n.rect = true)
    (hs : (stop_ n || decide (maxD ≤ n.depth)) = true) :
    QuadNode.traverse vp stop_ maxD fuel n = (n.withChildren none, [n]) := by
  rw [traverse_def, if_neg (by simp [h]), if_pos hs]

theorem traverse_exhausted (vp : OrientedRect K) (stop_ : QuadNode K → Bool) (maxD : ℕ)
    (n : QuadNode K) (h : vp.intersects_aabb n.rect = true)
    (hs : (stop_ n || decide (maxD ≤ n.depth)) = false) :
    QuadNode.traverse vp stop_ maxD 0 n = (n, [n]) := by
  rw [traverse_def, if_neg (by simp [h]), if_neg (by simp [hs])]

theorem traverse_descend (vp : OrientedRect K) (stop_ : QuadNode K → Bool) (maxD fuel : ℕ)
    (n : QuadNode K) (h : vp.intersects_aabb n.rect = true)
    (hs : (stop_ n || decide (maxD ≤ n.depth)) = false) :
    QuadNode.traverse vp stop_ maxD (fuel + 1) n =
      (let cs :=
        match n.children with
        | some cs => cs
        | none => n.freshChildren
      let r0 := QuadNode.traverse vp stop_ maxD fuel cs.1
      let r1 := QuadNode.traverse vp stop_ maxD fuel cs.2.1
      let r2 := QuadNode.traverse vp stop_ maxD fuel cs.2.2.1
      let r3 := QuadNode.traverse vp stop_ maxD fuel cs.2.2.2
      (n.withChildren (some (r0.1, r1.1, r2.1, r3.1)),
       n :: (r0.2 ++ r1.2 ++ r2.2 ++ r3.2))) := by
  rw [traverse_def, if_neg (by simp [h]), if_neg (by simp [hs])]

theorem traverse_shape (vp : OrientedRect K) (stop_ : QuadNode K → Bool) (maxD fuel : ℕ)
    (n : QuadNode K) :
    (QuadNode.traverse vp stop_ maxD fuel n).1.rect = n.rect ∧
    (QuadNode.traverse vp stop_ maxD fuel n).1.depth = n.depth ∧
    (QuadNode.traverse vp stop_ maxD fuel n).1.path = n.path ∧
    (QuadNode.traverse vp stop_ maxD fuel n).1.stars = n.stars := by
  cases fuel <;> rw [traverse_def] <;> split_ifs <;> simp

theorem traverse_descend_some (vp : OrientedRect K) (stop_ : QuadNode K → Bool) (maxD fuel : ℕ)
    (n : QuadNode K) (cs : QuadNode K × QuadNode K × QuadNode K × QuadNode K)
    (hc : n.children = some cs) (h : vp.intersects_aabb n.rect = true)
    (hs : (stop_ n || decide (maxD ≤ n.depth)) = false) :
    QuadNode.traverse vp stop_ maxD (fuel + 1) n =
      (n.withChildren (some ((QuadNode.traverse vp stop_ maxD fuel cs.1).1,
          (QuadNode.traverse vp stop_ maxD fuel cs.2.1).1,
          (QuadNode.traverse vp stop_ maxD fuel cs.2.2.1).1,
          (QuadNode.traverse vp stop_ maxD fuel cs.2.2.2).1)),
       n :: ((QuadNode.traverse vp stop_ maxD fuel cs.1).2 ++
          (QuadNode.traverse vp stop_ maxD fuel cs.2.1).2 ++
          (QuadNode.traverse vp stop_ maxD fuel cs.2.2.1).2 ++
          (QuadNode.traverse vp stop_ maxD fuel cs.2.2.2).2)) := by
  rw [traverse_descend vp stop_ maxD fuel n h hs]
  simp only [hc]

theorem traverse_descend_none (vp : OrientedRect K) (stop_ : QuadNode K → Bool) (maxD fuel : ℕ)
    (n : QuadNode K) (hc : n.children = none) (h : vp.intersects_aabb n.rect = true)
    (hs : (stop_ n || decide (maxD ≤ n.depth)) = false) :
    QuadNode.traverse vp stop_ maxD (fuel + 1) n =
      (n.withChildren (some ((QuadNode.traverse vp stop_ maxD fuel n.freshChildren.1).1,
          (QuadNode.traverse vp stop_ maxD fuel n.freshChildren.2.1).1,
          (QuadNode.traverse vp stop_ maxD fuel n.freshChildren.2.2.1).1,
          (QuadNode.traverse vp stop_ maxD fuel n.freshChildren.2.2.2).1)),
       n :: ((QuadNode.traverse vp stop_ maxD fuel n.freshChildren.1).2 ++
          (QuadNode.traverse vp stop_ maxD fuel n.freshChildren.2.1).2 ++
          (QuadNode.traverse vp stop_ maxD fuel n.freshChildren.2.2.1).2 ++
          (QuadNode.traverse vp stop_ maxD fuel n.freshChildren.2.2.2).2)) := by
  rw [traverse_descend vp stop_ maxD fuel n h hs]
  simp only [hc]

theorem traverse_conforms [FloorRing K] {R : Rect K} (vp : OrientedRect K)
    (stop_ : QuadNode K → Bool) (maxD : ℕ) :
    ∀ (fuel : ℕ) (n : QuadNode K), Conforms R n →
      Conforms R (QuadNode.traverse vp stop_ maxD fuel n).1 := by
  intro fuel
  induction fuel with
  | zero =>
    intro n h
    cases hI : vp.intersects_aabb n.rect with
    | false =>
      rw [traverse_prune _ _ _ _ _ hI]
      exact h.withChildren_none_conforms
    | true =>
      cases hS : (stop_ n || decide (maxD ≤ n.depth)) with
      | false =>
        rw [traverse_exhausted _ _ _ _ hI hS]
        exact h
      | true =>
        rw [traverse_stop _ _ _ _ _ hI hS]
        exact h.withChildren_none_conforms
  | succ fuel ih =>
    intro n h
    cases hI : vp.intersects_aabb n.rect with
    | false =>
      rw [traverse_prune _ _ _ _ _ hI]
      exact h.withChildren_none_conforms
    | true =>
      cases hS : (stop_ n || decide (maxD ≤ n.depth)) with
      | true =>
        rw [traverse_stop _ _ _ _ _ hI hS]
        exact h.withChildren_none_conforms
      | false =>
        cases hc : n.children with
        | some cs =>
          rw [traverse_descend_some vp stop_ maxD fuel n cs hc hI hS]
          obtain ⟨⟨w0, p0⟩, ⟨w1, p1⟩, ⟨w2, p2⟩, ⟨w3, p3⟩⟩ := h.children_some hc
          cases h with
          | leaf p st hst => simp [QuadNode.children] at hc
          | node p st c0 c1 c2 c3 hst =>
            refine Conforms.node p st _ _ _ _ hst ?_ ?_ ?_ ?_
              (ih _ w0) (ih _ w1) (ih _ w2) (ih _ w3) <;>
              rw [(traverse_shape vp stop_ maxD fuel _).2.2.1] <;>
              simp only [QuadNode.path] at p0 p1 p2 p3 <;> assumption
        | none =>
          rw [traverse_descend_none vp stop_ maxD fuel n hc hI hS]
          obtain ⟨⟨w0, p0⟩, ⟨w1, p1⟩, ⟨w2, p2⟩, ⟨w3, p3⟩⟩ := conforms_fresh h
          cases h with
          | leaf p st hst =>
            refine Conforms.node p st _ _ _ _ hst ?_ ?_ ?_ ?_
              (ih _ w0) (ih _ w1) (ih _ w2) (ih _ w3) <;>
              rw [(traverse_shape vp stop_ maxD fuel _).2.2.1] <;>
              simp only [QuadNode.path] at p0 p1 p2 p3 <;> assumption
          | node p st c0 c1 c2 c3 hst => simp [QuadNode.children] at hc

/-! ## Star generation lemmas -/

theorem generateStars_fst_of_some [FloorRing K] (n : QuadNode K) {s} (hs : n.stars = some s) :
    n.generateStars = (n, s) := by
  cases n with
  | mk r d p c st => cases st <;> simp_all [QuadNode.generateStars, QuadNode.stars]

theorem generateStars_of_none [FloorRing K] (n : QuadNode K) (hs : n.stars = none) :
    n.generateStars
      = (n.withStars (some (mkStars n.rect n.depth n.tileID)), mkStars n.rect n.depth n.tileID) := by
  cases n with
  | mk r d p c st => cases st <;> simp_all [QuadNode.generateStars, QuadNode.stars]

theorem tileID_eq [FloorRing K] {R : Rect K} {n : QuadNode K} (h : Conforms R n) :
    n.tileID = tile_key GLOBAL_SEED n.path.length (pathPos n.path).1 (pathPos n.path).2 := by
  rw [QuadNode.tileID, QuadNode.node_position, h.depth_eq]

theorem generateStars_snd_of_conforms [FloorRing K] {R : Rect K} {n : QuadNode K}
    (h : Conforms R n) : n.generateStars.2 = canonStars R n.path := by
  cases hs : n.stars with
  | some s =>
    rcases h.stars_eq with h1 | h1
    · rw [hs] at h1; cases h1
    · rw [hs] at h1
      rw [generateStars_fst_of_some n hs]
      exact Option.some.inj h1
  | none =>
    rw [generateStars_of_none n hs]
    show mkStars n.rect n.depth n.tileID = canonStars R n.path
    rw [h.rect_eq, h.depth_eq, tileID_eq h, canonStars]

theorem generateStars_conforms [FloorRing K] {R : Rect K} {n : QuadNode K}
    (h : Conforms R n) : Conforms R n.generateStars.1 := by
  cases hs : n.stars with
  | some s => rw [generateStars_fst_of_some n hs]; exact h
  | none =>
    rw [generateStars_of_none n hs]
    have hcanon : mkStars n.rect n.depth n.tileID = canonStars R n.path := by
      rw [h.rect_eq, h.depth_eq, tileID_eq h, canonStars]
    cases h with
    | leaf p st hst =>
      simp only [QuadNode.path] at hcanon
      rw [show (QuadNode.mk (rectAt R p) p.length p none st).withStars
            (some (mkStars (QuadNode.mk (rectAt R p) p.length p none st).rect
              (QuadNode.mk (rectAt R p) p.length p none st).depth
              (QuadNode.mk (rectAt R p) p.length p none st).tileID))
          = QuadNode.mk (rectAt R p) p.length p none
              (some (mkStars (QuadNode.mk (rectAt R p) p.length p none st).rect
                (QuadNode.mk (rectAt R p) p.length p none st).depth
                (QuadNode.mk (rectAt R p) p.length p none st).tileID)) from rfl, hcanon]
      exact Conforms.leaf p _ (Or.inr rfl)
    | node p st c0 c1 c2 c3 hst h0 h1 h2 h3 w0 w1 w2 w3 =>
      simp only [QuadNode.path] at hcanon
      rw [show (QuadNode.mk (rectAt R p) p.length p (some (c0, c1, c2, c3)) st).withStars
            (some (mkStars (QuadNode.mk (rectAt R p) p.length p (some (c0, c1, c2, c3)) st).rect
              (QuadNode.mk (rectAt R p) p.length p (some (c0, c1, c2, c3)) st).depth
              (QuadNode.mk (rectAt R p) p.length p (some (c0, c1, c2, c3)) st).tileID))
          = QuadNode.mk (rectAt R p) p.length p (some (c0, c1, c2, c3))
              (some (mkStars (QuadNode.mk (rectAt R p) p.length p (some (c0, c1, c2, c3)) st).rect
                (QuadNode.mk (rectAt R p) p.length p (some (c0, c1, c2, c3)) st).depth
                (QuadNode.mk (rectAt R p) p.length p (some (c0, c1, c2, c3)) st).tileID))
          from rfl, hcanon]
      exact Conforms.node p _ c0 c1 c2 c3 (Or.inr rfl) h0 h1 h2 h3 w0 w1 w2 w3

/-! ## Reachability preserves conformance -/

theorem conforms_of_reachable [FloorRing K] {R : Rect K} {n : QuadNode K}
    (h : Reachable R n) : Conforms R n := by
  induction h with
  | root => exact conforms_mk_leaf R [] R 0 (rectAt_nil R).symm rfl
  | subdiv n _ ih => exact subdivide_conforms ih
  | trav n vp stop_ maxD fuel _ ih => exact traverse_conforms vp stop_ maxD fuel n ih
  | gen n _ ih => exact generateStars_conforms ih
  | child0 n cs _ hc ih => exact (ih.children_some hc).1.1
  | child1 n cs _ hc ih => exact (ih.children_some hc).2.1.1
  | child2 n cs _ hc ih => exact (ih.children_some hc).2.2.1.1
  | child3 n cs _ hc ih => exact (ih.children_some hc).2.2.2.1

theorem conforms_of_inTree [FloorRing K] {R : Rect K} {m n : QuadNode K} :
    InTree m n → Conforms R n → Conforms R m := by
  intro hin
  induction hin with
  | refl => exact fun h => h
  | c0 n cs hc _ ih => exact fun h => ih ((h.children_some hc).1.1)
  | c1 n cs hc _ ih => exact fun h => ih ((h.children_some hc).2.1.1)
  | c2 n cs hc _ ih => exact fun h => ih ((h.children_some hc).2.2.1.1)
  | c3 n cs hc _ ih => exact fun h => ih ((h.children_some hc).2.2.2.1)

/-- C9.  Tree-structure invariant: in every node state reachable from a
fresh root by subdivide, traverse, star generation and child descent,
every node in the tree whose children field is present has exactly four
children, one per quadrant of its box, each with depth = parent depth + 1
and path = parent path extended by the quadrant index; and subdivide on a
node with children is a no-op. -/
theorem C9_tree_invariant [FloorRing K] (R : Rect K) :
    (∀ (n m : QuadNode K) (cs : QuadNode K × QuadNode K × QuadNode K × QuadNode K),
      Reachable R n → InTree m n → m.children = some cs →
      (cs.1.depth = m.depth + 1 ∧ cs.1.path = m.path ++ [0] ∧ cs.1.rect = m.rect.quadrant 0) ∧
      (cs.2.1.depth = m.depth + 1 ∧ cs.2.1.path = m.path ++ [1] ∧
        cs.2.1.rect = m.rect.quadrant 1) ∧
      (cs.2.2.1.depth = m.depth + 1 ∧ cs.2.2.1.path = m.path ++ [2] ∧
        cs.2.2.1.rect = m.rect.quadrant 2) ∧
      (cs.2.2.2.depth = m.depth + 1 ∧ cs.2.2.2.path = m.path ++ [3] ∧
        cs.2.2.2.rect = m.rect.quadrant 3)) ∧
    (∀ n : QuadNode K, n.children ≠ none → n.subdivide = n) := by
  constructor
  · intro n m cs hreach hin hc
    have hm : Conforms R m := conforms_of_inTree hin (conforms_of_reachable hreach)
    obtain ⟨⟨w0, p0⟩, ⟨w1, p1⟩, ⟨w2, p2⟩, ⟨w3, p3⟩⟩ := hm.children_some hc
    have hrect := hm.rect_eq
    have hdep := hm.depth_eq
    refine ⟨⟨?_, p0, ?_⟩, ⟨?_, p1, ?_⟩, ⟨?_, p2, ?_⟩, ⟨?_, p3, ?_⟩⟩
    · rw [w0.depth_eq, p0, hdep]; simp
    · rw [w0.rect_eq, p0, rectAt_snoc, hrect]
    · rw [w1.depth_eq, p1, hdep]; simp
    · rw [w1.rect_eq, p1, rectAt_snoc, hrect]
    · rw [w2.depth_eq, p2, hdep]; simp
    · rw [w2.rect_eq, p2, rectAt_snoc, hrect]
    · rw [w3.depth_eq, p3, hdep]; simp
    · rw [w3.rect_eq, p3, rectAt_snoc, hrect]
  · intro n hne
    cases hc : n.children with
    | none => exact absurd hc hne
    | some cs => exact subdivide_of_children_some n cs hc

/-- Witness for C9 at a concrete subdivided unit-box root over ℚ. -/
theorem C9_tree_invariant_witness :
    Reachable (Rect.mk (0 : ℚ) 0 1 1) witRoot.subdivide ∧
    InTree witRoot.subdivide witRoot.subdivide ∧
    witRoot.subdivide.children = some witRoot.freshChildren ∧
    witRoot.freshChildren.1.depth = witRoot.subdivide.depth + 1 ∧
    witRoot.freshChildren.1.path = witRoot.subdivide.path ++ [0] ∧
    witRoot.freshChildren.1.rect = witRoot.subdivide.rect.quadrant 0 := by
  have hr : Reachable (Rect.mk (0 : ℚ) 0 1 1) witRoot.subdivide :=
    Reachable.subdiv witRoot Reachable.root
  have happ := (C9_tree_invariant (Rect.mk (0 : ℚ) 0 1 1)).1 witRoot.subdivide witRoot.subdivide
    witRoot.freshChildren hr (InTree.refl _) rfl
  exact ⟨hr, InTree.refl _, rfl, happ.1.1, happ.1.2.1, happ.1.2.2⟩

/-- C1.  Determinism of content generation: for the fixed world seed, the
star sequence returned by generate_stars at any reachable node state is
exactly the canonical sequence of its (depth, path) address, so any two
reachable nodes with the same path (including one recreated after its
subtree was pruned and re-subdivided) return bit-identical star lists:
same identifiers, positions and brightness values in the same order. -/
theorem C1_generation_deterministic [FloorRing K] (R : Rect K) (n1 n2 : QuadNode K)
    (h1 : Reachable R n1) (h2 : Reachable R n2) (hp : n1.path = n2.path) :
    n1.generateStars.2 = n2.generateStars.2 ∧
    n1.generateStars.2 = canonStars R n1.path := by
  have e1 := generateStars_snd_of_conforms (conforms_of_reachable h1)
  have e2 := generateStars_snd_of_conforms (conforms_of_reachable h2)
  exact ⟨by rw [e1, e2, hp], e1⟩

/-- Witness for C1: the fresh unit root and the same root pruned by a
traversal against a disjoint viewport have equal paths and generate the
same star list. -/
theorem C1_generation_deterministic_witness :
    Reachable (Rect.mk (0 : ℚ) 0 1 1) witRoot ∧
    Reachable (Rect.mk (0 : ℚ) 0 1 1) witPruned ∧
    witRoot.path = witPruned.path ∧
    witRoot.generateStars.2 = witPruned.generateStars.2 := by
  have h1 : Reachable (Rect.mk (0 : ℚ) 0 1 1) witRoot := Reachable.root
  have h2 : Reachable (Rect.mk (0 : ℚ) 0 1 1) witPruned :=
    Reachable.trav witRoot witFar (fun _ => false) 20 0 Reachable.root
  have hp : witRoot.path = witPruned.path := by with_unfolding_all rfl
  exact ⟨h1, h2, hp,
    (C1_generation_deterministic (Rect.mk (0 : ℚ) 0 1 1) witRoot witPruned h1 h2 hp).1⟩

/-! ## Star draw tag collision (C10) -/

theorem range_map_getD {α : Type} (f : ℕ → α) (n k : ℕ) (d : α) (h : k < n) :
    ((List.range n).map f).getD k d = f k := by
  rw [List.getD_eq_getElem _ _ (by simpa using h)]
  simp

/-- C10.  Star draw tag collision: the brightness of the star at index k
is u01(tile, k) while the x position of the star at index j is derived
from u01(tile, 2j); hence for every even index 2j in range, the star at
index 2j has brightness equal to the u01 draw that places the x
coordinate of star j, and that brightness determines the x offset of
star j inside its box. -/
theorem C10_draw_collision [FloorRing K] (r : Rect K) (depth tileID : ℕ) (j : ℕ)
    (h2 : 2 * j < (mkStars r depth tileID).length)
    (hj : j < (mkStars r depth tileID).length) :
    ((mkStars r depth tileID).getD (2 * j) default).brightness = u01 tileID (2 * j) ∧
    ((mkStars r depth tileID).getD j default).position.1
      = r.cx + (((mkStars r depth tileID).getD (2 * j) default).brightness - 1 / 2) * r.w := by
  obtain ⟨N, hL⟩ : ∃ N, mkStars r depth tileID = (List.range N).map
      (fun i => (⟨star_id tileID i,
        (r.cx + (u01 tileID (2 * i) - 1 / 2) * r.w,
         r.cy + (u01 tileID (2 * i + 1) - 1 / 2) * r.h),
        u01 tileID i⟩ : StarStub K)) := ⟨_, rfl⟩
  rw [hL] at h2 hj ⊢
  simp only [List.length_map, List.length_range] at h2 hj
  rw [range_map_getD _ _ _ _ h2, range_map_getD _ _ _ _ hj]
  exact ⟨rfl, rfl⟩

/-- Witness for C10 at the unit box, depth 0, tile id 0, index j = 0. -/
theorem C10_draw_collision_witness :
    2 * 0 < (mkStars (Rect.mk (0 : ℚ) 0 1 1) 0 0).length ∧
    ((mkStars (Rect.mk (0 : ℚ) 0 1 1) 0 0).getD (2 * 0) default).brightness = u01 0 (2 * 0) ∧
    ((mkStars (Rect.mk (0 : ℚ) 0 1 1) 0 0).getD 0 default).position.1
      = (Rect.mk (0 : ℚ) 0 1 1).cx
        + (((mkStars (Rect.mk (0 : ℚ) 0 1 1) 0 0).getD (2 * 0) default).brightness - 1 / 2)
          * (Rect.mk (0 : ℚ) 0 1 1).w := by
  have h2 : 2 * 0 < (mkStars (Rect.mk (0 : ℚ) 0 1 1) 0 0).length := by
    with_unfolding_all decide
  have hj : 0 < (mkStars (Rect.mk (0 : ℚ) 0 1 1) 0 0).length := by
    with_unfolding_all decide
  obtain ⟨hb, hp⟩ := C10_draw_collision (Rect.mk (0 : ℚ) 0 1 1) 0 0 0 h2 hj
  exact ⟨h2, hb, hp⟩

/-! ## Depth heuristic monotonicity and clamping (C7) -/

/-- C7.  For a fixed valid configuration, the target depth is
non-decreasing as the viewport minimum half-extent shrinks, and it always
lies within [min_depth, max_depth]. -/
theorem C7_depth_monotone (t : QuadTree ℝ)
    (hsize : 0 < max t.root.rect.w t.root.rect.h) (hcells : 0 < t.cells_across)
    (hmm : t.min_depth ≤ t.max_depth) :
    (∀ A B : OrientedRect ℝ, min A.hw A.hh ≤ min B.hw B.hh →
      t.desired_depth B ≤ t.desired_depth A) ∧
    (∀ vp : OrientedRect ℝ, (t.min_depth : ℤ) ≤ t.desired_depth vp ∧
      t.desired_depth vp ≤ (t.max_depth : ℤ)) := by
  have hN : (0 : ℝ) < max t.root.rect.w t.root.rect.h * (t.cells_across : ℝ) :=
    mul_pos hsize (by exact_mod_cast hcells)
  constructor
  · intro A B hAB
    have hdA : (0 : ℝ) < max (1 / 1000000000) (min A.hw A.hh * 2) :=
      lt_of_lt_of_le (by norm_num) (le_max_left _ _)
    have hdAB : max (1 / 1000000000 : ℝ) (min A.hw A.hh * 2)
        ≤ max (1 / 1000000000) (min B.hw B.hh * 2) :=
      max_le_max le_rfl (by linarith)
    have hratio : max t.root.rect.w t.root.rect.h * (t.cells_across : ℝ)
          / max (1 / 1000000000) (min B.hw B.hh * 2)
        ≤ max t.root.rect.w t.root.rect.h * (t.cells_across : ℝ)
          / max (1 / 1000000000) (min A.hw A.hh * 2) := by
      gcongr
    have hposB : (0 : ℝ) < max t.root.rect.w t.root.rect.h * (t.cells_across : ℝ)
        / max (1 / 1000000000) (min B.hw B.hh * 2) := by
      apply div_pos hN (lt_of_lt_of_le (by norm_num) (le_max_left _ _))
    have hlog : t.pseudo_depth B ≤ t.pseudo_depth A := by
      simp only [QuadTree.pseudo_depth]
      exact Real.logb_le_logb_of_le one_lt_two hposB hratio
    have hceil : ⌈t.pseudo_depth B⌉ ≤ ⌈t.pseudo_depth A⌉ := Int.ceil_le_ceil hlog
    simp only [QuadTree.desired_depth]
    omega
  · intro vp
    have hmm2 : (t.min_depth : ℤ) ≤ (t.max_depth : ℤ) := by exact_mod_cast hmm
    simp only [QuadTree.desired_depth]
    omega

/-- Witness for C7 on the scenario tree with two axis-aligned viewports. -/
theorem C7_depth_monotone_witness :
    (0 : ℝ) < max scenarioTree.root.rect.w scenarioTree.root.rect.h ∧
    0 < scenarioTree.cells_across ∧
    scenarioTree.min_depth ≤ scenarioTree.max_depth ∧
    min (OrientedRect.mk (0 : ℝ) 0 1 1 1 0).hw (OrientedRect.mk (0 : ℝ) 0 1 1 1 0).hh
      ≤ min (OrientedRect.mk (0 : ℝ) 0 2 3 1 0).hw (OrientedRect.mk (0 : ℝ) 0 2 3 1 0).hh ∧
    scenarioTree.desired_depth (OrientedRect.mk (0 : ℝ) 0 2 3 1 0)
      ≤ scenarioTree.desired_depth (OrientedRect.mk (0 : ℝ) 0 1 1 1 0) ∧
    (scenarioTree.min_depth : ℤ)
      ≤ scenarioTree.desired_depth (OrientedRect.mk (0 : ℝ) 0 1 1 1 0) ∧
    scenarioTree.desired_depth (OrientedRect.mk (0 : ℝ) 0 1 1 1 0)
      ≤ (scenarioTree.max_depth : ℤ) := by
  have hsize : (0 : ℝ) < max scenarioTree.root.rect.w scenarioTree.root.rect.h := by
    norm_num [scenarioTree, QuadTree.from_center, QuadNode.rect, Rect.w, Rect.h]
  have hcells : 0 < scenarioTree.cells_across := by norm_num [scenarioTree, QuadTree.from_center]
  have hmm : scenarioTree.min_depth ≤ scenarioTree.max_depth := by
    norm_num [scenarioTree, QuadTree.from_center]
  have hAB : min (OrientedRect.mk (0 : ℝ) 0 1 1 1 0).hw (OrientedRect.mk (0 : ℝ) 0 1 1 1 0).hh
      ≤ min (OrientedRect.mk (0 : ℝ) 0 2 3 1 0).hw (OrientedRect.mk (0 : ℝ) 0 2 3 1 0).hh := by
    norm_num
  obtain ⟨hmono, hbounds⟩ := C7_depth_monotone scenarioTree hsize hcells hmm
  exact ⟨hsize, hcells, hmm, hAB, hmono _ _ hAB, (hbounds _).1, (hbounds _).2⟩

/-! ## Pruning on a disjoint viewport (C8) -/

/-- C8.  A query whose viewport does not intersect the root box returns
an empty visited list and leaves the root as a leaf: any existing
children of the root are discarded. -/
theorem C8_prune_disjoint (t : QuadTree ℝ) (vp : OrientedRect ℝ)
    (h : vp.intersects_aabb t.root.rect = false) :
    (t.update vp).2 = [] ∧ (t.update vp).1.root.children = none := by
  have e := traverse_prune vp (t.default_stop_predicate vp) t.max_depth (t.max_depth + 1)
    t.root h
  simp only [QuadTree.update, e]
  exact ⟨trivial, by simp⟩

/-- Witness for C8: the scenario tree queried with an axis-aligned unit
viewport centered at x = 2000, far outside the root box. -/
theorem C8_prune_disjoint_witness :
    (OrientedRect.mk (2000 : ℝ) 0 1 1 1 0).intersects_aabb scenarioTree.root.rect = false ∧
    (scenarioTree.update (OrientedRect.mk (2000 : ℝ) 0 1 1 1 0)).2 = [] ∧
    (scenarioTree.update (OrientedRect.mk (2000 : ℝ) 0 1 1 1 0)).1.root.children = none := by
  have h : (OrientedRect.mk (2000 : ℝ) 0 1 1 1 0).intersects_aabb scenarioTree.root.rect
      = false := by
    norm_num [OrientedRect.intersects_aabb, OrientedRect.axes, overlapI, projAabb, projObb,
      scenarioTree, QuadTree.from_center, QuadNode.rect]
  obtain ⟨h1, h2⟩ := C8_prune_disjoint scenarioTree (OrientedRect.mk (2000 : ℝ) 0 1 1 1 0) h
  exact ⟨h, h1, h2⟩

/-! ## SAT monotonicity under the quadrant split -/

theorem sign_bound (w x : K) (hw : 0 ≤ w) : -(w * |x|) ≤ w * x ∧ w * x ≤ w * |x| := by
  constructor
  · have := mul_le_mul_of_nonneg_left (neg_abs_le x) hw
    linarith
  · exact mul_le_mul_of_nonneg_left (le_abs_self x) hw

theorem proj_quadrant_sub (r : Rect K) (hw : 0 ≤ r.hw) (hh : 0 ≤ r.hh) (i : Fin 4)
    (a : K × K) :
    (projAabb a r).1 ≤ (projAabb a (r.quadrant i)).1 ∧
    (projAabb a (r.quadrant i)).2 ≤ (projAabb a r).2 := by
  have b1 := sign_bound (r.hw / 2) a.1 (by linarith)
  have b2 := sign_bound (r.hh / 2) a.2 (by linarith)
  fin_cases i <;>
    simp only [Rect.quadrant, Rect.quadrants, projAabb] <;>
    constructor <;> · dsimp only; linarith [b1.1, b1.2, b2.1, b2.2]

theorem overlapI_mono {l1 h1 l2 h2 : K} (o : K × K) (hl : l2 ≤ l1) (hh : h1 ≤ h2) :
    overlapI (l1, h1) o = true → overlapI (l2, h2) o = true := by
  simp only [overlapI, Bool.not_eq_true', Bool.or_eq_false_iff, decide_eq_false_iff_not, not_lt]
  rintro ⟨ha, hb⟩
  exact ⟨by linarith, by linarith⟩

theorem intersects_eq (o : OrientedRect K) (r : Rect K) :
    o.intersects_aabb r =
      (overlapI (projAabb (1, 0) r) (projObb (1, 0) o) &&
       (overlapI (projAabb (0, 1) r) (projObb (0, 1) o) &&
        (overlapI (projAabb o.axes.1 r) (projObb o.axes.1 o) &&
         overlapI (projAabb o.axes.2 r) (projObb o.axes.2 o)))) := by
  simp [OrientedRect.intersects_aabb, List.all_cons, List.all_nil]

theorem intersects_quadrant_mono (vp : OrientedRect K) (r : Rect K) (hw : 0 ≤ r.hw)
    (hh : 0 ≤ r.hh) (i : Fin 4) :
    vp.intersects_aabb (r.quadrant i) = true → vp.intersects_aabb r = true := by
  rw [intersects_eq, intersects_eq]
  simp only [Bool.and_eq_true]
  rintro ⟨ha, hb, hc, hd⟩
  have pa := proj_quadrant_sub r hw hh i (1, 0)
  have pb := proj_quadrant_sub r hw hh i (0, 1)
  have pc := proj_quadrant_sub r hw hh i vp.axes.1
  have pd := proj_quadrant_sub r hw hh i vp.axes.2
  refine ⟨?_, ?_, ?_, ?_⟩
  · exact overlapI_mono _ pa.1 pa.2 (by
      rw [show ((projAabb (1, 0) (r.quadrant i)).1, (projAabb (1, 0) (r.quadrant i)).2)
        = projAabb (1, 0) (r.quadrant i) from rfl]; exact ha)
  · exact overlapI_mono _ pb.1 pb.2 (by
      rw [show ((projAabb (0, 1) (r.quadrant i)).1, (projAabb (0, 1) (r.quadrant i)).2)
        = projAabb (0, 1) (r.quadrant i) from rfl]; exact hb)
  · exact overlapI_mono _ pc.1 pc.2 (by
      rw [show ((projAabb vp.axes.1 (r.quadrant i)).1, (projAabb vp.axes.1 (r.quadrant i)).2)
        = projAabb vp.axes.1 (r.quadrant i) from rfl]; exact hc)
  · exact overlapI_mono _ pd.1 pd.2 (by
      rw [show ((projAabb vp.axes.2 (r.quadrant i)).1, (projAabb vp.axes.2 (r.quadrant i)).2)
        = projAabb vp.axes.2 (r.quadrant i) from rfl]; exact hd)

theorem intersects_rectAt_prefix (vp : OrientedRect K) (R : Rect K)
    (hRw : 0 ≤ R.hw) (hRh : 0 ≤ R.hh) (p s : List (Fin 4)) :
    vp.intersects_aabb (rectAt R (p ++ s)) = true →
    vp.intersects_aabb (rectAt R p) = true := by
  induction s generalizing p with
  | nil => intro h; simpa using h
  | cons i s ih =>
    intro h
    have h1 : vp.intersects_aabb (rectAt R (p ++ [i])) = true := by
      apply ih (p ++ [i])
      rw [List.append_assoc]
      simpa using h
    rw [rectAt_snoc] at h1
    exact intersects_quadrant_mono vp (rectAt R p)
      (rectAt_hw_nonneg R hRw p) (rectAt_hh_nonneg R hRh p) i h1

/-! ## Characterization of the visited list -/

theorem traverse_visited_sound [FloorRing K] (vp : OrientedRect K) (stop_ : QuadNode K → Bool)
    (maxD E : ℕ) (R : Rect K)
    (hstop : ∀ m : QuadNode K, (stop_ m || decide (maxD ≤ m.depth)) = decide (E ≤ m.depth)) :
    ∀ (fuel : ℕ) (n : QuadNode K), Conforms R n → n.depth ≤ E →
      ∀ x ∈ (QuadNode.traverse vp stop_ maxD fuel n).2,
        x.depth = x.path.length ∧ x.rect = rectAt R x.path ∧ x.depth ≤ E ∧
        vp.intersects_aabb x.rect = true := by
  intro fuel
  induction fuel with
  | zero =>
    intro n h hdep x hx
    cases hI : vp.intersects_aabb n.rect with
    | false => rw [traverse_prune _ _ _ _ _ hI] at hx; simp at hx
    | true =>
      cases hS : (stop_ n || decide (maxD ≤ n.depth)) with
      | true =>
        rw [traverse_stop _ _ _ _ _ hI hS] at hx
        simp only [List.mem_singleton] at hx
        subst hx
        exact ⟨h.depth_eq, h.rect_eq, hdep, hI⟩
      | false =>
        rw [traverse_exhausted _ _ _ _ hI hS] at hx
        simp only [List.mem_singleton] at hx
        subst hx
        exact ⟨h.depth_eq, h.rect_eq, hdep, hI⟩
  | succ fuel ih =>
    intro n h hdep x hx
    cases hI : vp.intersects_aabb n.rect with
    | false => rw [traverse_prune _ _ _ _ _ hI] at hx; simp at hx
    | true =>
      cases hS : (stop_ n || decide (maxD ≤ n.depth)) with
      | true =>
        rw [traverse_stop _ _ _ _ _ hI hS] at hx
        simp only [List.mem_singleton] at hx
        subst hx
        exact ⟨h.depth_eq, h.rect_eq, hdep, hI⟩
      | false =>
        have hlt : n.depth < E := by
          have hs2 := hstop n
          rw [hS] at hs2
          have : ¬ (E ≤ n.depth) := by
            intro hle
            rw [eq_comm, decide_eq_false_iff_not] at hs2
            exact hs2 hle
          omega
        cases hc : n.children with
        | some cs =>
          obtain ⟨⟨w0, p0⟩, ⟨w1, p1⟩, ⟨w2, p2⟩, ⟨w3, p3⟩⟩ := h.children_some hc
          have hd0 : cs.1.depth ≤ E := by
            rw [w0.depth_eq, p0, List.length_append, ← h.depth_eq]; simp; omega
          have hd1 : cs.2.1.depth ≤ E := by
            rw [w1.depth_eq, p1, List.length_append, ← h.depth_eq]; simp; omega
          have hd2 : cs.2.2.1.depth ≤ E := by
            rw [w2.depth_eq, p2, List.length_append, ← h.depth_eq]; simp; omega
          have hd3 : cs.2.2.2.depth ≤ E := by
            rw [w3.depth_eq, p3, List.length_append, ← h.depth_eq]; simp; omega
          rw [traverse_descend_some vp stop_ maxD fuel n cs hc hI hS] at hx
          simp only [List.mem_cons, List.mem_append] at hx
          rcases hx with rfl | (((h0 | h1) | h2) | h3)
          · exact ⟨h.depth_eq, h.rect_eq, le_of_lt hlt, hI⟩
          · exact ih cs.1 w0 hd0 x h0
          · exact ih cs.2.1 w1 hd1 x h1
          · exact ih cs.2.2.1 w2 hd2 x h2
          · exact ih cs.2.2.2 w3 hd3 x h3
        | none =>
          obtain ⟨⟨w0, p0⟩, ⟨w1, p1⟩, ⟨w2, p2⟩, ⟨w3, p3⟩⟩ := conforms_fresh h
          have hd0 : n.freshChildren.1.depth ≤ E := by
            rw [w0.depth_eq, p0, List.length_append, ← h.depth_eq]; simp; omega
          have hd1 : n.freshChildren.2.1.depth ≤ E := by
            rw [w1.depth_eq, p1, List.length_append, ← h.depth_eq]; simp; omega
          have hd2 : n.freshChildren.2.2.1.depth ≤ E := by
            rw [w2.depth_eq, p2, List.length_append, ← h.depth_eq]; simp; omega
          have hd3 : n.freshChildren.2.2.2.depth ≤ E := by
            rw [w3.depth_eq, p3, List.length_append, ← h.depth_eq]; simp; omega
          rw [traverse_descend_none vp stop_ maxD fuel n hc hI hS] at hx
          simp only [List.mem_cons, List.mem_append] at hx
          rcases hx with rfl | (((h0 | h1) | h2) | h3)
          · exact ⟨h.depth_eq, h.rect_eq, le_of_lt hlt, hI⟩
          · exact ih n.freshChildren.1 w0 hd0 x h0
          · exact ih n.freshChildren.2.1 w1 hd1 x h1
          · exact ih n.freshChildren.2.2.1 w2 hd2 x h2
          · exact ih n.freshChildren.2.2.2 w3 hd3 x h3

theorem descend_children [FloorRing K] {R : Rect K} (vp : OrientedRect K)
    (stop_ : QuadNode K → Bool) (maxD fuel : ℕ) (n : QuadNode K) (h : Conforms R n)
    (hI : vp.intersects_aabb n.rect = true)
    (hS : (stop_ n || decide (maxD ≤ n.depth)) = false) :
    ∃ cs : QuadNode K × QuadNode K × QuadNode K × QuadNode K,
      (Conforms R cs.1 ∧ cs.1.path = n.path ++ [0]) ∧
      (Conforms R cs.2.1 ∧ cs.2.1.path = n.path ++ [1]) ∧
      (Conforms R cs.2.2.1 ∧ cs.2.2.1.path = n.path ++ [2]) ∧
      (Conforms R cs.2.2.2 ∧ cs.2.2.2.path = n.path ++ [3]) ∧
      n ∈ (QuadNode.traverse vp stop_ maxD (fuel + 1) n).2 ∧
      (∀ x : QuadNode K,
        (x ∈ (QuadNode.traverse vp stop_ maxD fuel cs.1).2 ∨
         x ∈ (QuadNode.traverse vp stop_ maxD fuel cs.2.1).2 ∨
         x ∈ (QuadNode.traverse vp stop_ maxD fuel cs.2.2.1).2 ∨
         x ∈ (QuadNode.traverse vp stop_ maxD fuel cs.2.2.2).2) →
        x ∈ (QuadNode.traverse vp stop_ maxD (fuel + 1) n).2) := by
  cases hc : n.children with
  | some cs =>
    obtain ⟨⟨w0, p0⟩, ⟨w1, p1⟩, ⟨w2, p2⟩, ⟨w3, p3⟩⟩ := h.children_some hc
    refine ⟨cs, ⟨w0, p0⟩, ⟨w1, p1⟩, ⟨w2, p2⟩, ⟨w3, p3⟩, ?_, ?_⟩
    · rw [traverse_descend_some vp stop_ maxD fuel n cs hc hI hS]
      simp
    · intro x hx
      rw [traverse_descend_some vp stop_ maxD fuel n cs hc hI hS]
      simp only [List.mem_cons, List.mem_append]
      tauto
  | none =>
    obtain ⟨⟨w0, p0⟩, ⟨w1, p1⟩, ⟨w2, p2⟩, ⟨w3, p3⟩⟩ := conforms_fresh h
    refine ⟨n.freshChildren, ⟨w0, p0⟩, ⟨w1, p1⟩, ⟨w2, p2⟩, ⟨w3, p3⟩, ?_, ?_⟩
    · rw [traverse_descend_none vp stop_ maxD fuel n hc hI hS]
      simp
    · intro x hx
      rw [traverse_descend_none vp stop_ maxD fuel n hc hI hS]
      simp only [List.mem_cons, List.mem_append]
      tauto

theorem traverse_visited_complete [FloorRing K] (vp : OrientedRect K)
    (stop_ : QuadNode K → Bool) (maxD E : ℕ) (R : Rect K)
    (hstop : ∀ m : QuadNode K, (stop_ m || decide (maxD ≤ m.depth)) = decide (E ≤ m.depth))
    (hRw : 0 ≤ R.hw) (hRh : 0 ≤ R.hh) :
    ∀ (fuel : ℕ) (n : QuadNode K), Conforms R n → E < fuel + n.depth →
      ∀ s : List (Fin 4), (n.path ++ s).length ≤ E →
        vp.intersects_aabb (rectAt R (n.path ++ s)) = true →
        ∃ x ∈ (QuadNode.traverse vp stop_ maxD fuel n).2, x.path = n.path ++ s := by
  intro fuel
  induction fuel with
  | zero =>
    intro n h hfuel s hlen hint
    exfalso
    have hd := h.depth_eq
    simp only [List.length_append] at hlen
    omega
  | succ fuel ih =>
    intro n h hfuel s hlen hint
    have hI : vp.intersects_aabb n.rect = true := by
      rw [h.rect_eq]
      exact intersects_rectAt_prefix vp R hRw hRh n.path s hint
    cases s with
    | nil =>
      cases hS : (stop_ n || decide (maxD ≤ n.depth)) with
      | true =>
        rw [traverse_stop _ _ _ _ _ hI hS]
        exact ⟨n, by simp, by simp⟩
      | false =>
        obtain ⟨cs, _, _, _, _, hmem, _⟩ :=
          descend_children vp stop_ maxD fuel n h hI hS
        exact ⟨n, hmem, by simp⟩
    | cons i s =>
      have hdlt : n.depth < E := by
        have hd := h.depth_eq
        simp only [List.length_append, List.length_cons] at hlen
        omega
      have hS : (stop_ n || decide (maxD ≤ n.depth)) = false := by
        rw [hstop n]
        simp only [decide_eq_false_iff_not, not_le]
        exact hdlt
      obtain ⟨cs, ⟨w0, p0⟩, ⟨w1, p1⟩, ⟨w2, p2⟩, ⟨w3, p3⟩, hmem, hsub⟩ :=
        descend_children vp stop_ maxD fuel n h hI hS
      have hdep0 : cs.1.depth = n.depth + 1 := by
        rw [w0.depth_eq, p0, List.length_append, ← h.depth_eq]; simp
      have hdep1 : cs.2.1.depth = n.depth + 1 := by
        rw [w1.depth_eq, p1, List.length_append, ← h.depth_eq]; simp
      have hdep2 : cs.2.2.1.depth = n.depth + 1 := by
        rw [w2.depth_eq, p2, List.length_append, ← h.depth_eq]; simp
      have hdep3 : cs.2.2.2.depth = n.depth + 1 := by
        rw [w3.depth_eq, p3, List.length_append, ← h.depth_eq]; simp
      fin_cases i
      · obtain ⟨x, hxmem, hxpath⟩ := ih cs.1 w0 (by omega) s
          (by rw [p0, List.append_assoc]; simpa using hlen)
          (by rw [p0, List.append_assoc]; simpa using hint)
        refine ⟨x, hsub x (Or.inl hxmem), ?_⟩
        rw [hxpath, p0, List.append_assoc]
        rfl
      · obtain ⟨x, hxmem, hxpath⟩ := ih cs.2.1 w1 (by omega) s
          (by rw [p1, List.append_assoc]; simpa using hlen)
          (by rw [p1, List.append_assoc]; simpa using hint)
        refine ⟨x, hsub x (Or.inr (Or.inl hxmem)), ?_⟩
        rw [hxpath, p1, List.append_assoc]
        rfl
      · obtain ⟨x, hxmem, hxpath⟩ := ih cs.2.2.1 w2 (by omega) s
          (by rw [p2, List.append_assoc]; simpa using hlen)
          (by rw [p2, List.append_assoc]; simpa using hint)
        refine ⟨x, hsub x (Or.inr (Or.inr (Or.inl hxmem))), ?_⟩
        rw [hxpath, p2, List.append_assoc]
        rfl
      · obtain ⟨x, hxmem, hxpath⟩ := ih cs.2.2.2 w3 (by omega) s
          (by rw [p3, List.append_assoc]; simpa using hlen)
          (by rw [p3, List.append_assoc]; simpa using hint)
        refine ⟨x, hsub x (Or.inr (Or.inr (Or.inr hxmem))), ?_⟩
        rw [hxpath, p3, List.append_assoc]
        rfl

/-! ## End-to-end scenario (C2) -/

theorem overlapI_of_center (a : K × K) (o : OrientedRect K) (r : Rect K)
    (hx1 : r.cx - r.hw ≤ o.cx) (hx2 : o.cx ≤ r.cx + r.hw)
    (hy1 : r.cy - r.hh ≤ o.cy) (hy2 : o.cy ≤ r.cy + r.hh)
    (hw : 0 ≤ o.hw) (hh : 0 ≤ o.hh) :
    overlapI (projAabb a r) (projObb a o) = true := by
  simp only [overlapI, projAabb, projObb, Bool.not_eq_true', Bool.or_eq_false_iff,
    decide_eq_false_iff_not, not_lt]
  have hrado : 0 ≤ o.hw * |o.axes.1.1 * a.1 + o.axes.1.2 * a.2|
      + o.hh * |o.axes.2.1 * a.1 + o.axes.2.2 * a.2| :=
    add_nonneg (mul_nonneg hw (abs_nonneg _)) (mul_nonneg hh (abs_nonneg _))
  have hdiff : |(o.cx * a.1 + o.cy * a.2) - (r.cx * a.1 + r.cy * a.2)|
      ≤ r.hw * |a.1| + r.hh * |a.2| := by
    have he : (o.cx * a.1 + o.cy * a.2) - (r.cx * a.1 + r.cy * a.2)
        = (o.cx - r.cx) * a.1 + (o.cy - r.cy) * a.2 := by ring
    rw [he]
    calc |(o.cx - r.cx) * a.1 + (o.cy - r.cy) * a.2|
        ≤ |(o.cx - r.cx) * a.1| + |(o.cy - r.cy) * a.2| := abs_add _ _
      _ = |o.cx - r.cx| * |a.1| + |o.cy - r.cy| * |a.2| := by rw [abs_mul, abs_mul]
      _ ≤ r.hw * |a.1| + r.hh * |a.2| := by
          apply add_le_add
          · apply mul_le_mul_of_nonneg_right _ (abs_nonneg _)
            rw [abs_le]
            constructor <;> linarith
          · apply mul_le_mul_of_nonneg_right _ (abs_nonneg _)
            rw [abs_le]
            constructor <;> linarith
  rw [abs_le] at hdiff
  constructor <;> dsimp only <;> linarith [hdiff.1, hdiff.2]

theorem intersects_of_center_mem (o : OrientedRect K) (r : Rect K)
    (hx1 : r.cx - r.hw ≤ o.cx) (hx2 : o.cx ≤ r.cx + r.hw)
    (hy1 : r.cy - r.hh ≤ o.cy) (hy2 : o.cy ≤ r.cy + r.hh)
    (hw : 0 ≤ o.hw) (hh : 0 ≤ o.hh) :
    o.intersects_aabb r = true := by
  rw [intersects_eq]
  simp only [Bool.and_eq_true]
  exact ⟨overlapI_of_center _ o r hx1 hx2 hy1 hy2 hw hh,
    overlapI_of_center _ o r hx1 hx2 hy1 hy2 hw hh,
    overlapI_of_center _ o r hx1 hx2 hy1 hy2 hw hh,
    overlapI_of_center _ o r hx1 hx2 hy1 hy2 hw hh⟩

theorem scenario_pseudo_depth :
    scenarioTree.pseudo_depth scenarioViewport = Real.logb 2 (4096 / 180) := by
  have h1 : min (90 : ℝ) 160 = 90 := min_eq_left (by norm_num)
  have h3 : max (1 / 1000000000 : ℝ) (90 * 2) = 180 := by
    rw [max_eq_right (by norm_num)]
    norm_num
  simp only [QuadTree.pseudo_depth, scenarioTree, scenarioViewport, QuadTree.from_center,
    QuadNode.rect, Rect.w, Rect.h, h1, h3]
  norm_num

theorem logb_two_pow (k : ℕ) : Real.logb 2 ((2 : ℝ) ^ k) = k := by
  rw [Real.logb_pow, Real.logb_self_eq_one (by norm_num), mul_one]

theorem scenario_desired_depth : scenarioTree.desired_depth scenarioViewport = 5 := by
  have hlow : (4 : ℝ) < Real.logb 2 (4096 / 180) := by
    have h16 : Real.logb 2 ((2 : ℝ) ^ (4 : ℕ)) = 4 := by
      rw [logb_two_pow]; norm_num
    rw [← h16]
    exact Real.logb_lt_logb (by norm_num) (by norm_num) (by norm_num)
  have hhigh : Real.logb 2 (4096 / 180 : ℝ) ≤ 5 := by
    have h32 : Real.logb 2 ((2 : ℝ) ^ (5 : ℕ)) = 5 := by
      rw [logb_two_pow]; norm_num
    rw [← h32]
    exact Real.logb_le_logb_of_le (by norm_num) (by norm_num) (by norm_num)
  have hceil : ⌈Real.logb 2 (4096 / 180 : ℝ)⌉ = (5 : ℤ) := by
    rw [Int.ceil_eq_iff]
    constructor
    · push_cast
      linarith
    · push_cast
      exact hhigh
  simp only [QuadTree.desired_depth, scenario_pseudo_depth, hceil]
  rfl

theorem scenario_stop (m : QuadNode ℝ) :
    (scenarioTree.default_stop_predicate scenarioViewport m
      || decide (scenarioTree.max_depth ≤ m.depth)) = decide (5 ≤ m.depth) := by
  simp only [QuadTree.default_stop_predicate, scenario_desired_depth]
  rw [show scenarioTree.max_depth = 20 from rfl, Bool.eq_iff_iff]
  simp only [Bool.or_eq_true, decide_eq_true_eq]
  omega

theorem scenario_root_conforms :
    Conforms scenarioTree.root.rect scenarioTree.root :=
  conforms_mk_leaf _ [] _ 0 rfl rfl

/-- C2.  End-to-end scenario: with the root box centered at (0,0) with
half-extents (512,512), cells_across 4 and depth bounds [0,20], and the
viewport centered at (10,96) with half-extents (90,160) rotated 30
degrees, the computed target depth is 5, and the query visits exactly
the nodes whose box intersects the rotated rectangle: every visited node
is at depth at most 5, carries the box of its address, and intersects
the viewport, and conversely every address of length at most 5 whose box
intersects the viewport appears in the visited list. -/
theorem C2_end_to_end_scenario :
    scenarioTree.desired_depth scenarioViewport = 5 ∧
    (∀ x ∈ (scenarioTree.update scenarioViewport).2,
      x.depth ≤ 5 ∧ scenarioViewport.intersects_aabb x.rect = true ∧
      x.depth = x.path.length ∧ x.rect = rectAt scenarioTree.root.rect x.path) ∧
    (∀ p : List (Fin 4), p.length ≤ 5 →
      scenarioViewport.intersects_aabb (rectAt scenarioTree.root.rect p) = true →
      ∃ x ∈ (scenarioTree.update scenarioViewport).2, x.path = p) := by
  have e2 : (scenarioTree.update scenarioViewport).2
      = (QuadNode.traverse scenarioViewport
          (scenarioTree.default_stop_predicate scenarioViewport) 20 21 scenarioTree.root).2 :=
    rfl
  have hd0 : scenarioTree.root.depth = 0 := rfl
  have hp0 : scenarioTree.root.path = [] := rfl
  refine ⟨scenario_desired_depth, ?_, ?_⟩
  · intro x hx
    rw [e2] at hx
    obtain ⟨ha, hb, hc, hd⟩ := traverse_visited_sound scenarioViewport
      (scenarioTree.default_stop_predicate scenarioViewport) 20 5 scenarioTree.root.rect
      scenario_stop 21 scenarioTree.root scenario_root_conforms (by rw [hd0]; norm_num) x hx
    exact ⟨hc, hd, ha, hb⟩
  · intro p hp hint
    have hcomp := traverse_visited_complete scenarioViewport
      (scenarioTree.default_stop_predicate scenarioViewport) 20 5 scenarioTree.root.rect
      scenario_stop (by norm_num [scenarioTree, QuadTree.from_center, QuadNode.rect])
      (by norm_num [scenarioTree, QuadTree.from_center, QuadNode.rect])
      21 scenarioTree.root scenario_root_conforms (by rw [hd0]; norm_num) p
      (by simpa [hp0] using hp) (by simpa [hp0] using hint)
    rw [e2]
    simpa [hp0] using hcomp

/-- Witness for C2: the empty address (the root itself) has length at
most 5 and its box intersects the scenario viewport (whose center lies
inside the root box), so a node with the empty path is in the visited
list. -/
theorem C2_end_to_end_scenario_witness :
    ([] : List (Fin 4)).length ≤ 5 ∧
    scenarioViewport.intersects_aabb (rectAt scenarioTree.root.rect []) = true ∧
    ∃ x ∈ (scenarioTree.update scenarioViewport).2, x.path = ([] : List (Fin 4)) := by
  have hint : scenarioViewport.intersects_aabb (rectAt scenarioTree.root.rect []) = true := by
    rw [rectAt_nil]
    apply intersects_of_center_mem <;>
      norm_num [scenarioTree, scenarioViewport, QuadTree.from_center, QuadNode.rect]
  exact ⟨by norm_num, hint,
    (C2_end_to_end_scenario.2.2 [] (by norm_num) hint)⟩

end ProcGalaxy
